import Mathlib

/-!
Verification development for the Smart Productivity Tracker (`src/app.py`).

The advanced-timer tab keeps a session-state dictionary
`{'active', 'start_time', 'elapsed', 'is_break', 'pomodoro_count'}` and three
buttons (Start, Pause, Stop & Save).  The metrics side consists of
`get_streak_days`, the goal-progress formulas and the weekly aggregates.
Timestamps are modelled as natural numbers of seconds; calendar dates as
integer day numbers (consecutive integers are consecutive days, and day
numbers divisible by 7 fall on Mondays, matching Python's `date.weekday()`
convention `Monday = 0`).
-/

namespace TimeTracker

/-- The session-state dictionary `st.session_state.advanced_timer`
(app.py lines 349-356): `active` flag, the `start_time` of the current
running segment (`None` when never started / after reset), the accumulated
`elapsed` whole minutes, and the Pomodoro bookkeeping fields. -/
structure TimerState where
  active : Bool
  start_time : Option Nat
  elapsed : Nat
  is_break : Bool
  pomodoro_count : Nat
deriving DecidableEq, Repr

/-- The initial timer dictionary (app.py lines 350-356). -/
def initTimer : TimerState :=
  { active := false, start_time := none, elapsed := 0, is_break := false,
    pomodoro_count := 0 }

/-- A persisted activity row as produced by the Stop & Save handler: the
stored `duration` in minutes and the `date` timestamp written at save time. -/
structure Record where
  duration : Nat
  date : Nat
deriving DecidableEq, Repr

/-- Interpretation of the timer dictionary as the three spec phases:
`active` means Running; inactive with a retained `start_time` is the state
reached by the Pause button (Paused); inactive with no `start_time` is the
initial / reset state (Idle). -/
inductive Phase where
  | Idle
  | Running
  | Paused
deriving DecidableEq, Repr

/-- Phase of a timer state under the interpretation above. -/
def TimerState.phase (s : TimerState) : Phase :=
  if s.active then Phase.Running
  else if s.start_time.isSome then Phase.Paused
  else Phase.Idle

/-- The Start button (app.py lines 387-390): rendered with
`disabled=timer_state['active']`, so a click is possible only while
inactive; it then sets `active := true` and `start_time := now`.
It does not touch `elapsed`. -/
def startBtn (now : Nat) (s : TimerState) : Option TimerState :=
  if s.active then none
  else some { s with active := true, start_time := some now }

/-- The Pause button (app.py lines 392-397): rendered with
`disabled=not timer_state['active']`; on a click it adds
`int((now - start_time).total_seconds() / 60)` — the current segment
truncated to whole minutes — to `elapsed` and clears `active`.
`start_time` is left in place.  (`getD now` totalises the `None` case,
which is unreachable while active.) -/
def pauseBtn (now : Nat) (s : TimerState) : Option TimerState :=
  if s.active then
    some { s with elapsed := s.elapsed + (now - s.start_time.getD now) / 60,
                  active := false }
  else none

/-- The live elapsed-time display while active (app.py lines 362-363):
accumulated minutes plus the truncated current segment. -/
def elapsedQuery (now : Nat) (s : TimerState) : Nat :=
  s.elapsed + (now - s.start_time.getD now) / 60

/-- The total minutes computed by the Stop & Save handler
(app.py lines 401-405): the final segment is added only when active. -/
def stopTotal (now : Nat) (s : TimerState) : Nat :=
  if s.active then s.elapsed + (now - s.start_time.getD now) / 60
  else s.elapsed

/-- The Stop & Save button (app.py lines 399-426): computes the total,
inserts a row with that `duration` and `date = datetime.now()` only when the
total is positive, and always resets `active`, `start_time`, `elapsed` and
`pomodoro_count` (`is_break` is not reset by the handler). -/
def stopBtn (now : Nat) (s : TimerState) : TimerState × Option Record :=
  ({ s with active := false, start_time := none, elapsed := 0,
            pomodoro_count := 0 },
   if 0 < stopTotal now s then some ⟨stopTotal now s, now⟩ else none)

/-- Modelled from the spec: `src/app.py` has only Start, Pause and
Stop & Save controls; the `cancel()` command of the spec ("valid from
Running or Paused. Discards all state, resets to Idle, emits no record.
Always succeeds.") has no counterpart in src, so it is modelled here
directly from the spec's words as an unconditional reset that emits
nothing. -/
def cancelBtn (_s : TimerState) : TimerState × Option Record :=
  (initTimer, none)

/-- One start/pause cycle: press Start at `p.1`, Pause at `p.2`. -/
def runSeg (s : TimerState) (p : Nat × Nat) : Option TimerState :=
  (startBtn p.1 s).bind (pauseBtn p.2)

/-- A whole session script: a list of start/pause cycles applied in order. -/
def runCycles (s : TimerState) (segs : List (Nat × Nat)) : Option TimerState :=
  segs.foldlM runSeg s

/-- The paused state reached by Start at time 0 followed by Pause at
time 300 (five whole minutes accumulated). -/
def pausedEx : TimerState :=
  { active := false, start_time := some 0, elapsed := 5, is_break := false,
    pomodoro_count := 0 }

lemma phase_eq_running_iff (s : TimerState) :
    s.phase = Phase.Running ↔ s.active = true := by
  rcases s with ⟨a, st, e, b, p⟩
  cases a
  · cases st <;> simp [TimerState.phase]
  · simp [TimerState.phase]

/-- C2 counterexample: after Start at 0 and Pause at 300 the timer is in the
Paused phase with five accumulated minutes, yet the Start button is enabled
(`startBtn` does not fail): it succeeds as a resume, keeping the accumulated
minutes rather than resetting them to zero, contradicting "invoking start
while Paused fails with InvalidTransition". -/
theorem start_from_paused_succeeds :
    (startBtn 0 initTimer).bind (pauseBtn 300) = some pausedEx ∧
    pausedEx.phase = Phase.Paused ∧
    startBtn 400 pausedEx ≠ none ∧
    startBtn 400 pausedEx =
      some { pausedEx with active := true, start_time := some 400 } ∧
    ({ pausedEx with active := true, start_time := some 400 } :
      TimerState).elapsed ≠ 0 := by
  decide

/-- C2 (amended): the Start button is rejected (disabled, state unchanged)
exactly when the timer is Running; from any inactive state — including the
Paused one — it succeeds, setting `start_time := now` and leaving the
accumulated elapsed minutes unchanged; from the initial Idle state the
session therefore begins with `elapsed = 0`. -/
theorem start_transition (s : TimerState) (now : Nat) :
    (startBtn now s = none ↔ s.phase = Phase.Running) ∧
    (startBtn now s = none ∨
      startBtn now s = some { s with active := true, start_time := some now }) ∧
    startBtn now initTimer =
      some { initTimer with active := true, start_time := some now } ∧
    ({ initTimer with active := true, start_time := some now } :
      TimerState).elapsed = 0 := by
  refine ⟨?_, ?_, rfl, rfl⟩
  · rw [phase_eq_running_iff]
    by_cases h : s.active <;> simp [startBtn, h]
  · by_cases h : s.active <;> simp [startBtn, h]

/-- C3: a Stop & Save click discards the session exactly when the computed
total is zero (no row is inserted, which the caller can distinguish from the
`some`-row success outcome), the timer always resets to the Idle phase, and
in particular stopping immediately after starting from the initial state —
zero elapsed wall time — never persists a record. -/
theorem stop_zero_discarded (s : TimerState) (now : Nat) :
    ((stopBtn now s).2 = none ↔ stopTotal now s = 0) ∧
    ((stopBtn now s).2 =
      if 0 < stopTotal now s then some ⟨stopTotal now s, now⟩ else none) ∧
    (stopBtn now s).1.phase = Phase.Idle ∧
    startBtn now initTimer =
      some { initTimer with active := true, start_time := some now } ∧
    (stopBtn now
      ({ initTimer with active := true, start_time := some now })).2 = none := by
  refine ⟨?_, rfl, ?_, rfl, ?_⟩
  · simp only [stopBtn]
    by_cases h : 0 < stopTotal now s <;> simp [h] <;> omega
  · simp [stopBtn, TimerState.phase]
  · simp [stopBtn, stopTotal, startBtn, initTimer]

/-- C6 counterexample: Start at 0, Pause at 300, then Stop at 900.  The
persisted row carries `date = 900`, the wall-clock time of the stop click,
not `300`, the moment the pause began — contradicting "stop() invoked while
Paused uses pauseStartedAt as the record's end timestamp". -/
theorem stop_stamps_wall_clock_cex :
    (startBtn 0 initTimer).bind (pauseBtn 300) = some pausedEx ∧
    pausedEx.phase = Phase.Paused ∧
    (stopBtn 900 pausedEx).2 = some ⟨5, 900⟩ ∧
    (900 : Nat) ≠ 300 := by
  decide

/-- C6 (amended): Stop & Save always stamps the inserted row with the
wall-clock time of the stop click; when clicked while inactive (Paused) the
duration is exactly the minutes accumulated up to the pause, so the paused
interval itself never enters the duration, and when clicked while Running
the truncated final segment is added. -/
theorem stop_stamps_wall_clock (s : TimerState) (now : Nat) :
    (∀ r : Record, (stopBtn now s).2 = some r → r.date = now) ∧
    (s.active = false → stopTotal now s = s.elapsed) ∧
    (s.active = true →
      stopTotal now s = s.elapsed + (now - s.start_time.getD now) / 60) ∧
    ((stopBtn now s).2 =
      if 0 < stopTotal now s then some ⟨stopTotal now s, now⟩ else none) := by
  refine ⟨?_, ?_, ?_, rfl⟩
  · intro r hr
    simp only [stopBtn] at hr
    by_cases h : 0 < stopTotal now s <;> simp [h] at hr
    rw [← hr]
  · intro h; simp [stopTotal, h]
  · intro h; simp [stopTotal, h]

/-- C6 witness: the amended theorem evaluated on the concrete paused state
stopped at time 900. -/
theorem stop_stamps_wall_clock_wit :
    stopTotal 900 pausedEx = pausedEx.elapsed ∧
    (stopBtn 900 pausedEx).2 = some ⟨5, 900⟩ := by
  have h := stop_stamps_wall_clock pausedEx 900
  refine ⟨h.2.1 rfl, ?_⟩
  have h4 := h.2.2.2
  simpa [pausedEx, stopTotal] using h4

lemma runCycles_cons (s : TimerState) (p : Nat × Nat) (t : List (Nat × Nat)) :
    runCycles s (p :: t) = (runSeg s p).bind (fun s2 => runCycles s2 t) := by
  simp only [runCycles, List.foldlM_cons]
  rfl

lemma runCycles_inactive (segs : List (Nat × Nat)) :
    ∀ s : TimerState, s.active = false →
      ∃ s2, runCycles s segs = some s2 ∧ s2.active = false ∧
        s2.elapsed = s.elapsed + (segs.map (fun p => (p.2 - p.1) / 60)).sum := by
  induction segs with
  | nil =>
    intro s h
    exact ⟨s, by simp [runCycles], h, by simp⟩
  | cons p t ih =>
    intro s h
    obtain ⟨a, b⟩ := p
    have hstep : runSeg s (a, b) =
        some ⟨false, some a, s.elapsed + (b - a) / 60, s.is_break,
              s.pomodoro_count⟩ := by
      simp [runSeg, startBtn, pauseBtn, h]
    obtain ⟨s2, h1, h2, h3⟩ :=
      ih ⟨false, some a, s.elapsed + (b - a) / 60, s.is_break,
          s.pomodoro_count⟩ rfl
    refine ⟨s2, ?_, h2, ?_⟩
    · rw [runCycles_cons, hstep, Option.some_bind]
      exact h1
    · simp only [List.map_cons, List.sum_cons]
      simp only at h3
      omega

/-- The state reached from the initial timer by the two running segments
`[0, 90]` and `[100, 190]` (each 90 seconds, truncated to 1 minute apiece). -/
def cycleEx : TimerState :=
  { active := false, start_time := some 100, elapsed := 2, is_break := false,
    pomodoro_count := 0 }

/-- C4 counterexample: two 90-second running segments separated by a pause.
The code persists 2 minutes (each segment truncated separately), while the
sum of the running intervals is 180 seconds = 3 minutes, contradicting
"the total elapsed duration at stop() equals ... the sum of the running
intervals". -/
theorem stop_total_not_interval_sum :
    runCycles initTimer [(0, 90), (100, 190)] = some cycleEx ∧
    (stopBtn 200 cycleEx).2 = some ⟨2, 200⟩ ∧
    ((90 - 0) + (190 - 100)) / 60 = 3 ∧ (2 : Nat) ≠ 3 := by
  decide

/-- C4 (amended): across any number of pause/resume cycles, time spent
paused never enters the elapsed counter — each cycle contributes its own
minute-truncated running interval, the Start button never changes the
accumulated minutes, the total at stop equals the sum of the per-cycle
truncated intervals, and the live elapsed query is never negative. -/
theorem pause_time_excluded (segs : List (Nat × Nat)) (s : TimerState)
    (stopAt now : Nat) :
    (∃ s2, runCycles initTimer segs = some s2 ∧ s2.active = false ∧
      s2.elapsed = (segs.map (fun p => (p.2 - p.1) / 60)).sum ∧
      stopTotal stopAt s2 = (segs.map (fun p => (p.2 - p.1) / 60)).sum) ∧
    (∀ s3, startBtn now s = some s3 → s3.elapsed = s.elapsed) ∧
    0 ≤ elapsedQuery now s := by
  refine ⟨?_, ?_, Nat.zero_le _⟩
  · obtain ⟨s2, h1, h2, h3⟩ := runCycles_inactive segs initTimer rfl
    simp only [initTimer, Nat.zero_add] at h3
    exact ⟨s2, h1, h2, h3, by simp [stopTotal, h2, h3]⟩
  · intro s3 h3
    by_cases h : s.active
    · simp [startBtn, h] at h3
    · simp only [startBtn, h, if_neg, Bool.false_eq_true, ite_false,
        Option.some_inj] at h3
      rw [← h3]

/-- C4 witness: the amended theorem applied at the concrete paused state:
pressing Start at time 400 keeps the five accumulated minutes. -/
theorem pause_time_excluded_wit :
    ({ pausedEx with active := true, start_time := some 400 } :
      TimerState).elapsed = pausedEx.elapsed :=
  (pause_time_excluded [(0, 90), (100, 190)] pausedEx 200 400).2.1
    { pausedEx with active := true, start_time := some 400 } (by decide)

/-- C10: every running segment is truncated to whole minutes on its own
(integer division of its seconds by 60): the accumulated minutes after any
session script equal the sum of the per-segment truncated values and that
sum is what Stop & Save persists; a segment shorter than 60 seconds
contributes exactly 0; and on the concrete script `[(0,90),(100,190)]` the
persisted total (2) is strictly below the truncation of the total running
time (3). -/
theorem per_segment_truncation (segs : List (Nat × Nat)) (stopAt a b : Nat) :
    (∃ s2, runCycles initTimer segs = some s2 ∧
      s2.elapsed = (segs.map (fun p => (p.2 - p.1) / 60)).sum ∧
      (stopBtn stopAt s2).2 =
        (if 0 < (segs.map (fun p => (p.2 - p.1) / 60)).sum
         then some ⟨(segs.map (fun p => (p.2 - p.1) / 60)).sum, stopAt⟩
         else none)) ∧
    (b - a < 60 → ∀ s3, runSeg initTimer (a, b) = some s3 → s3.elapsed = 0) ∧
    (∃ s4, runCycles initTimer [(0, 90), (100, 190)] = some s4 ∧
      s4.elapsed = 2 ∧ 2 < (90 - 0 + (190 - 100)) / 60) := by
  refine ⟨?_, ?_, ⟨cycleEx, by decide, by decide, by decide⟩⟩
  · obtain ⟨s2, h1, h2, h3⟩ := runCycles_inactive segs initTimer rfl
    simp only [initTimer, Nat.zero_add] at h3
    refine ⟨s2, h1, h3, ?_⟩
    simp [stopBtn, stopTotal, h2, h3]
  · intro hlt s3 h3
    have hseg : runSeg initTimer (a, b) =
        some ⟨false, some a, (b - a) / 60, false, 0⟩ := by
      simp [runSeg, startBtn, pauseBtn, initTimer]
    rw [hseg, Option.some_inj] at h3
    rw [← h3]
    simp [Nat.div_eq_of_lt hlt]

/-- C10 witness: a 30-second segment contributes zero minutes. -/
theorem per_segment_truncation_wit :
    (30 : Nat) - 0 < 60 ∧
    (⟨false, some 0, 0, false, 0⟩ : TimerState).elapsed = 0 :=
  ⟨by decide, (per_segment_truncation [] 0 0 30).2.1 (by decide)
    ⟨false, some 0, 0, false, 0⟩ (by decide)⟩

/-- C7: the spec-modelled `cancel()` always succeeds from any state,
discards all accumulated state (the result is the initial dictionary, whose
phase is Idle), emits no record, and a subsequent Start begins a fresh
session with zero accumulated minutes. -/
theorem cancel_resets (s : TimerState) (now : Nat) :
    cancelBtn s = (initTimer, none) ∧
    (cancelBtn s).1.phase = Phase.Idle ∧
    (cancelBtn s).2 = none ∧
    startBtn now (cancelBtn s).1 =
      some { initTimer with active := true, start_time := some now } ∧
    ({ initTimer with active := true, start_time := some now } :
      TimerState).elapsed = 0 := by
  exact ⟨rfl, rfl, rfl, rfl, rfl⟩

/-- Daily goal progress (app.py line 616):
`min(today_total / daily_goal, 1.0) if daily_goal > 0 else 0`, with the
real division modelled in ℚ. -/
def dailyProgress (today_total daily_goal : Nat) : ℚ :=
  if 0 < daily_goal then min ((today_total : ℚ) / (daily_goal : ℚ)) 1 else 0

/-- Weekly goal progress (app.py line 623): same formula over the weekly
total and goal. -/
def weeklyProgress (week_total weekly_goal : Nat) : ℚ :=
  if 0 < weekly_goal then min ((week_total : ℚ) / (weekly_goal : ℚ)) 1 else 0

/-- Monthly goal progress (app.py line 630): same formula over the monthly
total and goal. -/
def monthlyProgress (month_total monthly_goal : Nat) : ℚ :=
  if 0 < monthly_goal then min ((month_total : ℚ) / (monthly_goal : ℚ)) 1
  else 0

/-- C5: goal progress is `min(total/goal, 1)` for a positive goal and `0`
for a zero goal (no division by zero), identically for the daily, weekly
and monthly computations; in particular 45/60 gives 3/4, 90/60 caps at 1,
and a zero goal gives 0. -/
theorem goal_progress_capped (total goal : Nat) :
    (0 < goal → dailyProgress total goal = min ((total : ℚ) / (goal : ℚ)) 1) ∧
    dailyProgress total 0 = 0 ∧
    weeklyProgress total goal = dailyProgress total goal ∧
    monthlyProgress total goal = dailyProgress total goal ∧
    dailyProgress 45 60 = 3 / 4 ∧
    weeklyProgress 90 60 = 1 ∧
    monthlyProgress 10 0 = 0 := by
  refine ⟨?_, by simp [dailyProgress], rfl, rfl, ?_, ?_, by simp [monthlyProgress]⟩
  · intro h
    simp [dailyProgress, h]
  · rw [dailyProgress, if_pos (by norm_num)]
    rw [show ((45 : Nat) : ℚ) / ((60 : Nat) : ℚ) = 3 / 4 by norm_num]
    rw [min_eq_left (by norm_num)]
  · rw [weeklyProgress, if_pos (by norm_num)]
    rw [min_eq_right (by norm_num)]

/-- C5 witness: the positive-goal clause evaluated at 45/60. -/
theorem goal_progress_capped_wit :
    (0 : Nat) < 60 ∧ dailyProgress 45 60 = min ((45 : ℚ) / (60 : ℚ)) 1 :=
  ⟨by norm_num, (goal_progress_capped 45 60).1 (by norm_num)⟩

/-- A row of the `activities` table as the metrics queries see it: the
`category`, the calendar day of the `date` column (an integer day number;
consecutive integers are consecutive days, multiples of 7 are Mondays), and
the stored `duration` in minutes. -/
structure ActivityRow where
  category : String
  day : Int
  duration : Nat
deriving DecidableEq, Repr

/-- Insert into a weakly-descending list, keeping it descending. -/
def insertDesc (x : Int) : List Int → List Int
  | [] => [x]
  | y :: ys => if y ≤ x then x :: y :: ys else y :: insertDesc x ys

/-- Insertion sort into weakly-descending order; together with `List.dedup`
this models the query's `SELECT DISTINCT ... ORDER BY day DESC`. -/
def sortDesc : List Int → List Int
  | [] => []
  | x :: xs => insertDesc x (sortDesc xs)

/-- Distinct days sorted descending, as returned by the streak query. -/
def distinctDesc (l : List Int) : List Int := sortDesc l.dedup

/-- The loop of `get_streak_days` (app.py lines 153-167): walk the
descending day list, incrementing while the head equals the expected date
and stepping the expectation back one day, stopping otherwise.  The source's
`elif day == current_date` branch repeats the `if` condition verbatim (dead
code) and is kept here as the second, identical test. -/
def streakWalk : List Int → Int → Nat
  | [], _ => 0
  | d :: rest, cur =>
    if d = cur then 1 + streakWalk rest (cur - 1)
    else if d = cur then 1 + streakWalk rest (cur - 1)
    else 0

/-- The streak query (app.py lines 142-148): the distinct days of the
category's rows dated on or after `today - 30` (SQLite
`date >= date('now','-30 days')`; the query has no upper bound), sorted
descending. -/
def streakQueryDays (db : List ActivityRow) (category : String)
    (today : Int) : List Int :=
  distinctDesc
    ((db.filter (fun r =>
      decide (r.category = category ∧ today - 30 ≤ r.day))).map
        (fun r => r.day))

/-- `get_streak_days(category)` (app.py lines 140-167): an empty query
result returns 0, otherwise the walk runs from today over the query's
day list. -/
def get_streak_days (db : List ActivityRow) (category : String)
    (today : Int) : Nat :=
  if (streakQueryDays db category today).isEmpty then 0
  else streakWalk (streakQueryDays db category today) today

/-- Fuelled backward walk by date membership: count consecutive days,
starting at `cur`, that appear in `days`. -/
def memGo (days : List Int) : Nat → Int → Nat
  | 0, _ => 0
  | fuel + 1, cur => if cur ∈ days then 1 + memGo days fuel (cur - 1) else 0

/-- The days with at least one record of the category, as the claim's
walk consults them (no windowing, duplicates harmless to membership). -/
def claimDays (db : List ActivityRow) (category : String) : List Int :=
  (db.filter (fun r => decide (r.category = category))).map (fun r => r.day)

/-- The daily-streak computation exactly as the claim words it: walk
backward day by day from today, incrementing while the exact expected date
has at least one record of the category, stopping at the first absent date
— with no 30-day restriction.  The fuel `length + 1` suffices because the
walk can never count more days than there are records. -/
def claimDailyStreak (db : List ActivityRow) (category : String)
    (today : Int) : Nat :=
  memGo (claimDays db category) ((claimDays db category).length + 1) today

/-- `date.weekday()` of a day number: Monday = 0, day numbers divisible by
7 are Mondays. -/
def weekday (d : Int) : Int := d % 7

/-- `week_start` (app.py line 605):
`date.today() - timedelta(days=date.today().weekday())`, the Monday of the
current week. -/
def week_start (today : Int) : Int := today - weekday today

/-- The weekly goal total (app.py lines 605-607): sum of durations of the
category's rows dated on or after the Monday of the current week. -/
def weeklyGoalTotal (db : List ActivityRow) (category : String)
    (today : Int) : Nat :=
  ((db.filter (fun r =>
    decide (r.category = category ∧ week_start today ≤ r.day))).map
      (fun r => r.duration)).sum

/-- The dashboard "This Week" metric (app.py line 259): all rows with
`date >= (today - 7 days) + "%"`.  Because every stored `date` carries a
time component `"YYYY-MM-DD HH:MM:SS"` and `" "` sorts before `"%"`, the
string comparison admits exactly the rows of the last seven calendar days
`today - 6 .. today` and later — a rolling window, not a Monday bucket. -/
def thisWeekTotal (db : List ActivityRow) (today : Int) : Nat :=
  ((db.filter (fun r => decide (today - 6 ≤ r.day))).map
    (fun r => r.duration)).sum

lemma mem_insertDesc {a x : Int} : ∀ {l : List Int},
    a ∈ insertDesc x l ↔ a = x ∨ a ∈ l := by
  intro l
  induction l with
  | nil => simp [insertDesc]
  | cons y ys ih =>
    by_cases h : y ≤ x
    · simp [insertDesc, h]
    · simp only [insertDesc, h, ite_false, List.mem_cons, ih]
      tauto

lemma perm_insertDesc (x : Int) :
    ∀ l : List Int, List.Perm (insertDesc x l) (x :: l) := by
  intro l
  induction l with
  | nil => simp [insertDesc]
  | cons y ys ih =>
    by_cases h : y ≤ x
    · simp [insertDesc, h]
    · have h1 : insertDesc x (y :: ys) = y :: insertDesc x ys := by
        simp [insertDesc, h]
      rw [h1]
      exact (ih.cons y).trans (List.Perm.swap x y ys)

lemma perm_sortDesc : ∀ l : List Int, List.Perm (sortDesc l) l := by
  intro l
  induction l with
  | nil => exact List.Perm.refl []
  | cons x xs ih =>
    exact (perm_insertDesc x (sortDesc xs)).trans (ih.cons x)

lemma mem_sortDesc {a : Int} {l : List Int} : a ∈ sortDesc l ↔ a ∈ l :=
  (perm_sortDesc l).mem_iff

lemma mem_distinctDesc {a : Int} {l : List Int} :
    a ∈ distinctDesc l ↔ a ∈ l :=
  mem_sortDesc.trans List.mem_dedup

lemma length_distinctDesc_le (l : List Int) :
    (distinctDesc l).length ≤ l.length :=
  le_trans (le_of_eq (perm_sortDesc l.dedup).length_eq)
    (List.dedup_sublist l).length_le

lemma sorted_gt_insertDesc {x : Int} : ∀ {l : List Int},
    l.Sorted (fun a b => b < a) → (∀ y ∈ l, y ≠ x) →
      (insertDesc x l).Sorted (fun a b => b < a) := by
  intro l
  induction l with
  | nil => intro _ _; simp [insertDesc]
  | cons y ys ih =>
    intro hs hx
    rw [List.sorted_cons] at hs
    obtain ⟨hy, hys⟩ := hs
    by_cases h : y ≤ x
    · have hlt : y < x := lt_of_le_of_ne h (hx y (List.mem_cons_self y ys))
      simp only [insertDesc, h, ite_true]
      rw [List.sorted_cons]
      refine ⟨?_, ?_⟩
      · intro b hb
        rcases List.mem_cons.mp hb with hb | hb
        · omega
        · have := hy b hb
          omega
      · rw [List.sorted_cons]
        exact ⟨hy, hys⟩
    · simp only [insertDesc, h, ite_false]
      rw [List.sorted_cons]
      refine ⟨?_, ih hys (fun z hz => hx z (List.mem_cons_of_mem y hz))⟩
      intro b hb
      rcases mem_insertDesc.mp hb with hb | hb
      · omega
      · exact hy b hb

lemma sorted_gt_sortDesc : ∀ {l : List Int},
    l.Nodup → (sortDesc l).Sorted (fun a b => b < a) := by
  intro l
  induction l with
  | nil => intro _; simp [sortDesc]
  | cons x xs ih =>
    intro hnd
    rw [List.nodup_cons] at hnd
    obtain ⟨hx, hxs⟩ := hnd
    refine sorted_gt_insertDesc (ih hxs) ?_
    intro y hy hyx
    exact hx (hyx ▸ mem_sortDesc.mp hy)

lemma sorted_gt_distinctDesc (l : List Int) :
    (distinctDesc l).Sorted (fun a b => b < a) :=
  sorted_gt_sortDesc l.nodup_dedup

lemma streakWalk_cons (d : Int) (rest : List Int) (cur : Int) :
    streakWalk (d :: rest) cur =
      if d = cur then 1 + streakWalk rest (cur - 1) else 0 := by
  by_cases h : d = cur <;> simp [streakWalk, h]

lemma memGo_nil (fuel : Nat) (cur : Int) : memGo [] fuel cur = 0 := by
  cases fuel <;> simp [memGo]

lemma memGo_congr_le (l1 l2 : List Int) :
    ∀ (fuel : Nat) (cur : Int),
      (∀ v : Int, v ≤ cur → (v ∈ l1 ↔ v ∈ l2)) →
        memGo l1 fuel cur = memGo l2 fuel cur := by
  intro fuel
  induction fuel with
  | zero => intro cur _; rfl
  | succ n ih =>
    intro cur h
    by_cases hc : cur ∈ l1
    · have hc2 : cur ∈ l2 := (h cur le_rfl).mp hc
      simp only [memGo, if_pos hc, if_pos hc2]
      rw [ih (cur - 1) (fun v hv => h v (by omega))]
    · have hc2 : cur ∉ l2 := fun hx => hc ((h cur le_rfl).mpr hx)
      simp [memGo, hc, hc2]

lemma streakWalk_eq_memGo :
    ∀ l : List Int, l.Sorted (fun a b => b < a) →
      ∀ (cur : Int) (fuel : Nat), (∀ d ∈ l, d ≤ cur) → l.length ≤ fuel →
        streakWalk l cur = memGo l fuel cur := by
  intro l
  induction l with
  | nil => intro _ cur fuel _ _; rw [memGo_nil]; rfl
  | cons d rest ih =>
    intro hs cur fuel hle hf
    rw [List.sorted_cons] at hs
    obtain ⟨hd, hrest⟩ := hs
    cases fuel with
    | zero => simp at hf
    | succ f =>
      rw [streakWalk_cons]
      by_cases hdc : d = cur
      · have hcur : cur ∈ d :: rest := by
          rw [← hdc]; exact List.mem_cons_self d rest
        rw [if_pos hdc]
        simp only [memGo, if_pos hcur]
        congr 1
        have h1 : streakWalk rest (cur - 1) = memGo rest f (cur - 1) := by
          apply ih hrest
          · intro x hx
            have h2 := hd x hx
            omega
          · simpa using hf
        rw [h1]
        apply memGo_congr_le
        intro v hv
        constructor
        · intro h; exact List.mem_cons_of_mem d h
        · intro h
          rcases List.mem_cons.mp h with h | h
          · omega
          · exact h
      · rw [if_neg hdc]
        have hcur : cur ∉ d :: rest := by
          intro hx
          rcases List.mem_cons.mp hx with h | h
          · exact hdc h.symm
          · have h2 := hd cur h
            have h3 := hle d (List.mem_cons_self d rest)
            omega
        simp [memGo, hcur]

lemma streakWalk_le (l : List Int) (lo : Int) :
    ∀ cur : Int, (∀ d ∈ l, lo ≤ d) →
      (streakWalk l cur : Int) ≤ max 0 (cur - lo + 1) := by
  induction l with
  | nil =>
    intro cur _
    simp only [streakWalk, Nat.cast_zero]
    exact le_max_left 0 _
  | cons d rest ih =>
    intro cur h
    rw [streakWalk_cons]
    by_cases hdc : d = cur
    · rw [if_pos hdc]
      have h2 : lo ≤ d := h d (List.mem_cons_self d rest)
      have h1 := ih (cur - 1) (fun x hx => h x (List.mem_cons_of_mem d hx))
      have e1 : max (0 : Int) (cur - 1 - lo + 1) = cur - lo := by
        have h3 : (0 : Int) ≤ cur - 1 - lo + 1 := by omega
        rw [max_eq_right h3]
        ring
      have e2 : max (0 : Int) (cur - lo + 1) = cur - lo + 1 :=
        max_eq_right (by omega)
      rw [e1] at h1
      rw [e2]
      push_cast
      omega
    · rw [if_neg hdc]
      simp only [Nat.cast_zero]
      exact le_max_left 0 _

lemma get_streak_eq_walk (db : List ActivityRow) (cat : String)
    (today : Int) :
    get_streak_days db cat today =
      streakWalk (streakQueryDays db cat today) today := by
  unfold get_streak_days
  by_cases he : (streakQueryDays db cat today).isEmpty
  · rw [if_pos he]
    rw [List.isEmpty_iff] at he
    rw [he]
    rfl
  · rw [if_neg he]

/-- Activity on exactly today, yesterday and the day before. -/
def exDb3 : List ActivityRow :=
  [⟨"Study", 0, 10⟩, ⟨"Study", -1, 10⟩, ⟨"Study", -2, 10⟩]

/-- Activity on today and two days ago, with a gap at yesterday. -/
def exDbGap : List ActivityRow := [⟨"Study", 0, 10⟩, ⟨"Study", -2, 10⟩]

/-- Thirty-two consecutive days of activity ending today (= day 31). -/
def longDb : List ActivityRow :=
  (List.range 32).map (fun i => ⟨"Study", (31 : Int) - i, 10⟩)

/-- A record well outside the 30-day window. -/
def oldEx : List ActivityRow := [⟨"Study", -5, 10⟩]

/-- C1 counterexample: with activity on all 32 consecutive days ending
today, the code returns 31 (its query drops the day 31 days back), while
the claimed unwindowed backward walk — increment while the exact expected
date has a record, stop at the first absent date — yields 32. -/
theorem daily_streak_unwindowed_cex :
    get_streak_days longDb "Study" 31 = 31 ∧
    claimDailyStreak longDb "Study" 31 = 32 ∧
    (31 : Nat) ≠ 32 := by
  decide

/-- C1 (amended): for histories whose records of the category are dated no
later than the reference date, the computation equals the claimed backward
walk applied to the records of the last 30 days (dates ≥ today − 30); the
walk increments while the exact expected date has a record and stops at the
first absent date.  In particular {today, today−1, today−2} gives 3,
{today, today−2} gives 1, and an empty history gives 0. -/
theorem daily_streak_windowed (db : List ActivityRow) (cat : String)
    (today : Int) (h : ∀ r ∈ db, r.category = cat → r.day ≤ today) :
    get_streak_days db cat today =
      claimDailyStreak (db.filter (fun r => decide (today - 30 ≤ r.day)))
        cat today ∧
    get_streak_days exDb3 "Study" 0 = 3 ∧
    get_streak_days exDbGap "Study" 0 = 1 ∧
    get_streak_days [] "Study" 0 = 0 := by
  refine ⟨?_, by decide, by decide, by decide⟩
  have hA : claimDays (db.filter (fun r => decide (today - 30 ≤ r.day))) cat
      = (db.filter (fun r =>
          decide (r.category = cat ∧ today - 30 ≤ r.day))).map
            (fun r => r.day) := by
    unfold claimDays
    rw [List.filter_filter]
    have hpred : (fun (a : ActivityRow) =>
        decide (a.category = cat) && decide (today - 30 ≤ a.day)) =
        (fun r => decide (r.category = cat ∧ today - 30 ≤ r.day)) := by
      funext a
      simp [Bool.decide_and]
    rw [hpred]
  rw [get_streak_eq_walk]
  unfold streakQueryDays claimDailyStreak
  rw [hA]
  have hs := sorted_gt_distinctDesc
    ((db.filter (fun r =>
      decide (r.category = cat ∧ today - 30 ≤ r.day))).map (fun r => r.day))
  have hle : ∀ d ∈ distinctDesc
      ((db.filter (fun r =>
        decide (r.category = cat ∧ today - 30 ≤ r.day))).map
          (fun r => r.day)), d ≤ today := by
    intro d hd
    have hd2 := mem_distinctDesc.mp hd
    obtain ⟨r, hr, hrd⟩ := List.mem_map.mp hd2
    have hr1 := (List.mem_filter.mp hr).1
    have hr2 := (List.mem_filter.mp hr).2
    rw [decide_eq_true_eq] at hr2
    have h3 := h r hr1 hr2.1
    omega
  have hf : (distinctDesc
      ((db.filter (fun r =>
        decide (r.category = cat ∧ today - 30 ≤ r.day))).map
          (fun r => r.day))).length ≤
      ((db.filter (fun r =>
        decide (r.category = cat ∧ today - 30 ≤ r.day))).map
          (fun r => r.day)).length + 1 :=
    le_trans (length_distinctDesc_le _) (Nat.le_succ _)
  rw [streakWalk_eq_memGo _ hs today _ hle hf]
  apply memGo_congr_le
  intro v _
  exact mem_distinctDesc

/-- C1 witness: the amended equivalence evaluated on the three-day
history. -/
theorem daily_streak_windowed_wit :
    (∀ r ∈ exDb3, r.category = "Study" → r.day ≤ (0 : Int)) ∧
    get_streak_days exDb3 "Study" 0 =
      claimDailyStreak
        (exDb3.filter (fun r => decide ((0 : Int) - 30 ≤ r.day)))
        "Study" 0 :=
  ⟨by decide, (daily_streak_windowed exDb3 "Study" 0 (by decide)).1⟩

/-- C9: the streak consults only records dated within the last 30 days —
appending arbitrarily many records strictly older than `today - 30` never
changes the result — and the returned streak never exceeds 31. -/
theorem streak_window_bound (db old : List ActivityRow) (cat : String)
    (today : Int) (hold : ∀ r ∈ old, r.day < today - 30) :
    get_streak_days (db ++ old) cat today = get_streak_days db cat today ∧
    get_streak_days db cat today ≤ 31 := by
  constructor
  · have hfil : (db ++ old).filter (fun r =>
        decide (r.category = cat ∧ today - 30 ≤ r.day)) =
        db.filter (fun r =>
          decide (r.category = cat ∧ today - 30 ≤ r.day)) := by
      rw [List.filter_append]
      have h0 : old.filter (fun r =>
          decide (r.category = cat ∧ today - 30 ≤ r.day)) = [] := by
        rw [List.filter_eq_nil_iff]
        intro a ha hp
        rw [decide_eq_true_eq] at hp
        obtain ⟨-, h2⟩ := hp
        have h3 := hold a ha
        omega
      rw [h0, List.append_nil]
    unfold get_streak_days streakQueryDays
    rw [hfil]
  · rw [get_streak_eq_walk]
    have hmem : ∀ d ∈ streakQueryDays db cat today, today - 30 ≤ d := by
      intro d hd
      unfold streakQueryDays at hd
      have hd2 := mem_distinctDesc.mp hd
      obtain ⟨r, hr, hrd⟩ := List.mem_map.mp hd2
      have hr2 := (List.mem_filter.mp hr).2
      rw [decide_eq_true_eq] at hr2
      obtain ⟨-, h2⟩ := hr2
      omega
    have hb := streakWalk_le (streakQueryDays db cat today) (today - 30)
      today hmem
    have h31 : max (0 : Int) (today - (today - 30) + 1) ≤ 31 := by
      apply max_le <;> omega
    have h4 := le_trans hb h31
    omega

/-- C9 witness: the window theorem evaluated on the 32-day history plus an
out-of-window record. -/
theorem streak_window_bound_wit :
    (∀ r ∈ oldEx, r.day < (31 : Int) - 30) ∧
    get_streak_days (longDb ++ oldEx) "Study" 31 =
      get_streak_days longDb "Study" 31 ∧
    get_streak_days longDb "Study" 31 ≤ 31 :=
  ⟨by decide, (streak_window_bound longDb oldEx "Study" 31 (by decide)).1,
   (streak_window_bound longDb oldEx "Study" 31 (by decide)).2⟩

/-- C8 counterexample: on a Monday (day 7), a record from the previous
Sunday (day 6) is excluded from the Monday-start weekly goal total but
included in the dashboard "This Week" rolling total, so the two weekly
aggregates do not group records by the same Monday-start convention. -/
theorem weekly_bucket_inconsistent :
    weekday 7 = 0 ∧
    weeklyGoalTotal [⟨"Study", 6, 30⟩] "Study" 7 = 0 ∧
    thisWeekTotal [⟨"Study", 6, 30⟩] 7 = 30 ∧
    (0 : Nat) ≠ 30 := by
  decide

/-- C8 (amended): the weekly goal total does bucket by Monday-start weeks —
`week_start today` is the Monday of today's calendar week (weekday 0, at
most six days back), and for records not dated after today its filter
condition is equivalent to sharing today's Monday bucket — but the
dashboard "This Week" total instead sums a rolling window of the last seven
calendar days, and src has no weekly streak; the two weekly aggregates do
not share one convention. -/
theorem weekly_bucket_amended (db : List ActivityRow) (cat : String)
    (today : Int) (r : ActivityRow) (hr : r.day ≤ today) :
    weekday (week_start today) = 0 ∧
    week_start today ≤ today ∧
    today - week_start today < 7 ∧
    ((r.category = cat ∧ week_start today ≤ r.day) ↔
      (r.category = cat ∧ week_start r.day = week_start today)) ∧
    weeklyGoalTotal db cat today =
      ((db.filter (fun x =>
        decide (x.category = cat ∧ week_start today ≤ x.day))).map
          (fun x => x.duration)).sum ∧
    thisWeekTotal db today =
      ((db.filter (fun x => decide (today - 6 ≤ x.day))).map
        (fun x => x.duration)).sum := by
  refine ⟨?_, ?_, ?_, ?_, rfl, rfl⟩
  · simp only [weekday, week_start]
    omega
  · simp only [weekday, week_start]
    omega
  · simp only [weekday, week_start]
    omega
  · simp only [week_start, weekday]
    constructor
    · rintro ⟨h1, h2⟩
      exact ⟨h1, by omega⟩
    · rintro ⟨h1, h2⟩
      exact ⟨h1, by omega⟩

/-- C8 witness: the amended theorem evaluated on a Monday with a record
from the same week's Wednesday. -/
theorem weekly_bucket_amended_wit :
    ((5 : Int) ≤ 7) ∧
    weekday (week_start 7) = 0 ∧
    (((("Study" : String) = "Study") ∧ week_start 7 ≤ (5 : Int)) ↔
      ((("Study" : String) = "Study") ∧ week_start 5 = week_start 7)) := by
  refine ⟨by norm_num, ?_, ?_⟩
  · exact (weekly_bucket_amended [] "Study" 7 ⟨"Study", 5, 10⟩
      (by norm_num)).1
  · exact (weekly_bucket_amended [] "Study" 7 ⟨"Study", 5, 10⟩
      (by norm_num)).2.2.2.1

end TimeTracker
